import Mathlib

/-!
Verification of the canvas blob demo: a closed outline built from `TOTAL_POINTS`
anchor points evenly spaced on a circle, joined by cubic bezier curves whose two
control points ("mid points") are placed at a distance `baseRadius * k` from
their owning anchor, oscillated back and forth by `updateMidPoints`, and
draggable through the mouse handlers.  All numeric state is modelled over `ℝ`.
Shared mutable point objects are modelled as an indexed arena: `ShapeState`
stores all mid points in one table `mids : ℕ → MidPoint` and all main points in
`anchors : ℕ → Anchor`; curves and the per-anchor pairing lists hold indices
into those tables, so a write through either path is visible through the other.
-/

set_option autoImplicit false

noncomputable section

namespace CanvasBlob

/-- `TOTAL_POINTS = 5`, the hardcoded number of main points. -/
def TOTAL_POINTS : ℕ := 5

/-- `MAX_MIDPOINT_ROTATION = Math.PI / 6`, the maximum sweep arc. -/
def MAX_MIDPOINT_ROTATION : ℝ := Real.pi / 6

/-- `baseRadius = 250`, the circle radius. -/
def baseRadius : ℝ := 250

/-- `curveStartAngle = -Math.PI / 2`: population starts at the top. -/
def curveStartAngle : ℝ := -(Real.pi / 2)

/-- `curveIncrement = Math.PI * 2 / TOTAL_POINTS`, generalized over the count. -/
def curveIncrement (N : ℕ) : ℝ := Real.pi * 2 / N

/-- `k = 4 * ((Math.sqrt(2) - 1) / 3); k /= (TOTAL_POINTS / 4)`, generalized
over the point count (the source divides by `5 / 4` with float division). -/
def k (N : ℕ) : ℝ := (4 * ((Real.sqrt 2 - 1) / 3)) / ((N : ℝ) / 4)

/-- `getMidPointComponent(parentComponent, trigFn, angle, distance)` from the
source: one coordinate of a mid point, offset from its parent main point. -/
def getMidPointComponent (parentComponent : ℝ) (trigFn : ℝ → ℝ) (angle : ℝ)
    (dist : ℝ) : ℝ :=
  parentComponent + trigFn angle * dist

/-- A main point as first created: `{x, y}` on the base circle. -/
structure MainPoint where
  x : ℝ
  y : ℝ

/-- `mainPoint N R i`: the entry pushed for loop index `i` in the
`points.push({x: Math.cos(currentAngle) * baseRadius, ...})` loop. -/
def mainPoint (N : ℕ) (R : ℝ) (i : ℕ) : MainPoint :=
  { x := Real.cos (curveStartAngle + curveIncrement N * i) * R
  , y := Real.sin (curveStartAngle + curveIncrement N * i) * R }

/-- `points`: the array of main points, in creation order. -/
def points (N : ℕ) (R : ℝ) : List MainPoint := (List.range N).map (mainPoint N R)

/-- `var nextI = (i + 1) < points.length ? (i + 1) : 0` from the curves loop. -/
def nextI (N i : ℕ) : ℕ := if i + 1 < N then i + 1 else 0

/-- `var firstMidPointAngle = currentIncrement` (= `i * curveIncrement`). -/
def firstMidPointAngle (N i : ℕ) : ℝ := i * curveIncrement N

/-- `var secondMidPointAngle = nextIncrement - Math.PI`. -/
def secondMidPointAngle (N i : ℕ) : ℝ := nextI N i * curveIncrement N - Real.pi

/-- A bezier mid point (control point): position, base angle, current angle. -/
structure MidPoint where
  x : ℝ
  y : ℝ
  baseAngle : ℝ
  currentAngle : ℝ

/-- The mid point arena at startup: index `2*i` holds curve `i`'s first mid
point (`curves[i][1]`), index `2*i+1` holds its second (`curves[i][2]`),
exactly the two object literals pushed in the curves loop. -/
def initMid (N : ℕ) (R : ℝ) (m : ℕ) : MidPoint :=
  let i := m / 2
  if m % 2 = 0 then
    { x := getMidPointComponent (mainPoint N R i).x Real.cos
        (firstMidPointAngle N i) (R * k N)
    , y := getMidPointComponent (mainPoint N R i).y Real.sin
        (firstMidPointAngle N i) (R * k N)
    , baseAngle := firstMidPointAngle N i
    , currentAngle := firstMidPointAngle N i }
  else
    { x := getMidPointComponent (mainPoint N R (nextI N i)).x Real.cos
        (secondMidPointAngle N i) (R * k N)
    , y := getMidPointComponent (mainPoint N R (nextI N i)).y Real.sin
        (secondMidPointAngle N i) (R * k N)
    , baseAngle := secondMidPointAngle N i
    , currentAngle := secondMidPointAngle N i }

/-- One entry of the `curves` array: `[points[i], {first mid}, {second mid},
points[nextI]]`, as indices into the two arenas (slot order preserved). -/
structure Curve where
  startIdx : ℕ
  ctrl1 : ℕ
  ctrl2 : ℕ
  endIdx : ℕ

/-- `curve N i`: curve `i` as pushed by the curves loop. -/
def curve (N i : ℕ) : Curve :=
  { startIdx := i, ctrl1 := 2 * i, ctrl2 := 2 * i + 1, endIdx := nextI N i }

/-- The `curves` array. -/
def curves (N : ℕ) : List Curve := (List.range N).map (curve N)

/-- `var prevCurveIndex = i === 0 ? points.length - 1 : i - 1`. -/
def prevIdx (N i : ℕ) : ℕ := if i = 0 then N - 1 else i - 1

/-- A main point after the `midPointConnections` loop decorated it: position,
the two cached mid point connections (as arena indices), movement direction
and speed. -/
structure Anchor where
  x : ℝ
  y : ℝ
  conn0 : ℕ
  conn1 : ℕ
  midPointMovementDirection : ℤ
  midPointMovementSpeed : ℝ

/-- Anchor `i` at startup: `point.midPointConnections = [curves[prev][2],
curves[i][1]]; point.midPointMovementDirection = 1;
point.midPointMovementSpeed = Math.random()` (the random draw is the
parameter `s0 i`). -/
def initAnchor (N : ℕ) (R : ℝ) (s0 : ℕ → ℝ) (i : ℕ) : Anchor :=
  { x := (mainPoint N R i).x
  , y := (mainPoint N R i).y
  , conn0 := (curve N (prevIdx N i)).ctrl2
  , conn1 := (curve N i).ctrl1
  , midPointMovementDirection := 1
  , midPointMovementSpeed := s0 i }

/-- The mutable shape state: the two arenas. -/
structure ShapeState where
  anchors : ℕ → Anchor
  mids : ℕ → MidPoint

/-- The freshly built shape. -/
def initState (N : ℕ) (R : ℝ) (s0 : ℕ → ℝ) : ShapeState :=
  { anchors := initAnchor N R s0, mids := initMid N R }

/-- Write one mid point cell of the arena. -/
def setMid (st : ShapeState) (a : ℕ) (mp : MidPoint) : ShapeState :=
  { st with mids := Function.update st.mids a mp }

/-- C9 claim context: the anchor placement angle `startAngle + i * (2π/N)`,
the `currentAngle` of the main-points loop. -/
def anchorPlacementAngle (N i : ℕ) : ℝ := curveStartAngle + curveIncrement N * i

/-- C9: For every point count N, the curve-roundness constant k equals
`4*(sqrt 2 - 1)/3` multiplied by `4/N`, as exact real arithmetic. -/
theorem kappa_scaled (N : ℕ) (hN : 0 < N) :
    k N = (4 * ((Real.sqrt 2 - 1) / 3)) * (4 / (N : ℝ)) := by
  have hN0 : (N : ℝ) ≠ 0 := Nat.cast_ne_zero.mpr hN.ne'
  unfold k
  field_simp

/-- Witness for C9 at the program's actual point count `N = 5`. -/
theorem kappa_scaled_witness :
    k 5 = (4 * ((Real.sqrt 2 - 1) / 3)) * (4 / ((5 : ℕ) : ℝ)) :=
  kappa_scaled 5 (by norm_num)

/-- C3 counterexample: with the invalid configuration `N = 2 < 3` and
`R = -1 ≤ 0`, construction does not fail: it still produces a complete shape
with 2 main points and 2 curves (there is no validation in the source). -/
theorem invalid_config_still_constructs :
    (points 2 (-1)).length = 2 ∧ (curves 2).length = 2 := by
  constructor <;> simp [points, curves]

/-- C3 amended: shape construction performs no validation and can never fail;
for every `N` and `R` (valid or not) it totally constructs `N` main points and
`N` curves.  The hardcoded configuration (`TOTAL_POINTS = 5`,
`baseRadius = 250`) does satisfy `N ≥ 3`, `R > 0` and `k > 0`. -/
theorem construction_total_and_config_valid :
    (∀ (N : ℕ) (R : ℝ), (points N R).length = N ∧ (curves N).length = N) ∧
      3 ≤ TOTAL_POINTS ∧ (0 : ℝ) < baseRadius ∧ 0 < k TOTAL_POINTS := by
  refine ⟨fun N R => ⟨by simp [points], by simp [curves]⟩, by norm_num [TOTAL_POINTS],
    by norm_num [baseRadius], ?_⟩
  have h1 : (1 : ℝ) < Real.sqrt 2 := by
    nlinarith [Real.sq_sqrt (by norm_num : (0:ℝ) ≤ 2), Real.sqrt_nonneg 2]
  unfold k TOTAL_POINTS
  apply div_pos
  · linarith
  · norm_num

/-- C5: for every valid configuration (`N ≥ 3`, `R > 0`) the builder produces
exactly `N` main points and `N` curves, and the curves close into a single
loop: curve `i`'s end-anchor index is curve `(i+1) % N`'s start-anchor index
(same arena cell, hence the same object). -/
theorem builder_counts_and_closed_loop (N : ℕ) (R : ℝ) (hN : 3 ≤ N)
    (hR : 0 < R) :
    (points N R).length = N ∧ (curves N).length = N ∧
      ∀ i, i < N →
        (curves N)[i]? = some (curve N i) ∧
        (curve N i).endIdx = (curve N ((i + 1) % N)).startIdx := by
  refine ⟨by simp [points], by simp [curves], fun i hi => ⟨?_, ?_⟩⟩
  · simp [curves, List.getElem?_map, List.getElem?_range, hi]
  · show nextI N i = (i + 1) % N
    unfold nextI
    by_cases h : i + 1 < N
    · rw [if_pos h, Nat.mod_eq_of_lt h]
    · rw [if_neg h]
      have h2 : i + 1 = N := by omega
      rw [h2, Nat.mod_self]

/-- Witness for C5 at the program's configuration `N = 5`, `R = 250`. -/
theorem builder_counts_and_closed_loop_witness :
    (points 5 250).length = 5 ∧ (curves 5).length = 5 ∧
      ∀ i, i < 5 →
        (curves 5)[i]? = some (curve 5 i) ∧
        (curve 5 i).endIdx = (curve 5 ((i + 1) % 5)).startIdx :=
  builder_counts_and_closed_loop 5 250 (by norm_num) (by norm_num)

/-- C1 counterexample: in the freshly built shape (actual configuration
`N = 5`, `R = 250`), curve 0's first control point has current angle
`0`, not anchor 0's placement angle `-π/2`; and curve 0's second control
point has current angle `2π/5 - π`, not anchor 1's placement angle minus π
(`-π/2 + 2π/5 - π`).  Both angle clauses of the claim fail. -/
theorem control_angle_ne_anchor_angle :
    ¬ ((initState 5 250 (fun _ => (1:ℝ)/2)).mids ((curve 5 0).ctrl1)).currentAngle
        = anchorPlacementAngle 5 0 ∧
    ¬ ((initState 5 250 (fun _ => (1:ℝ)/2)).mids ((curve 5 0).ctrl2)).currentAngle
        = anchorPlacementAngle 5 1 - Real.pi := by
  have hpi := Real.pi_pos
  constructor
  · intro h
    simp only [initState, curve, initMid, anchorPlacementAngle, firstMidPointAngle,
      curveStartAngle, curveIncrement, Nat.cast_ofNat] at h
    norm_num at h
    linarith
  · intro h
    simp only [initState, curve, initMid, anchorPlacementAngle, secondMidPointAngle,
      nextI, curveStartAngle, curveIncrement, Nat.cast_ofNat] at h
    norm_num at h
    linarith

/-- C1 amended: in the freshly built shape, curve `i`'s first control point's
current angle equals anchor `i`'s placement angle PLUS `π/2` (that is,
`i * (2π/N)`), the second control point's current angle equals anchor
`(i+1 mod N)`'s placement angle MINUS `π/2` (that is,
`((i+1 mod N)) * (2π/N) - π`), and each control point's position equals its
owning anchor's position plus `R * k` in the direction of its angle via
cosine (x) / sine (y). -/
theorem control_angles_and_positions (N : ℕ) (R : ℝ) (s0 : ℕ → ℝ) (i : ℕ)
    (hi : i < N) :
    ((initState N R s0).mids ((curve N i).ctrl1)).currentAngle
        = anchorPlacementAngle N i + Real.pi / 2 ∧
    ((initState N R s0).mids ((curve N i).ctrl2)).currentAngle
        = anchorPlacementAngle N (nextI N i) - Real.pi / 2 ∧
    ((initState N R s0).mids ((curve N i).ctrl1)).x
        = ((initState N R s0).anchors i).x
          + R * k N * Real.cos (((initState N R s0).mids ((curve N i).ctrl1)).currentAngle) ∧
    ((initState N R s0).mids ((curve N i).ctrl1)).y
        = ((initState N R s0).anchors i).y
          + R * k N * Real.sin (((initState N R s0).mids ((curve N i).ctrl1)).currentAngle) ∧
    ((initState N R s0).mids ((curve N i).ctrl2)).x
        = ((initState N R s0).anchors (nextI N i)).x
          + R * k N * Real.cos (((initState N R s0).mids ((curve N i).ctrl2)).currentAngle) ∧
    ((initState N R s0).mids ((curve N i).ctrl2)).y
        = ((initState N R s0).anchors (nextI N i)).y
          + R * k N * Real.sin (((initState N R s0).mids ((curve N i).ctrl2)).currentAngle) := by
  have h1 : (2 * i) % 2 = 0 := by omega
  have h2 : (2 * i) / 2 = i := by omega
  have h3 : (2 * i + 1) % 2 = 1 := by omega
  have h4 : (2 * i + 1) / 2 = i := by omega
  refine ⟨?_, ?_, ?_, ?_, ?_, ?_⟩ <;>
    simp only [initState, curve, initMid, initAnchor, h1, h2, h3, h4,
      getMidPointComponent, anchorPlacementAngle, firstMidPointAngle,
      secondMidPointAngle, curveStartAngle] <;>
    norm_num <;> ring

/-- Witness for C1's amended theorem at `N = 5`, `R = 250`, `i = 0`. -/
theorem control_angles_and_positions_witness :
    ((initState 5 250 (fun _ => (1:ℝ)/3)).mids ((curve 5 0).ctrl1)).currentAngle
        = anchorPlacementAngle 5 0 + Real.pi / 2 ∧
    ((initState 5 250 (fun _ => (1:ℝ)/3)).mids ((curve 5 0).ctrl2)).currentAngle
        = anchorPlacementAngle 5 (nextI 5 0) - Real.pi / 2 ∧
    ((initState 5 250 (fun _ => (1:ℝ)/3)).mids ((curve 5 0).ctrl1)).x
        = ((initState 5 250 (fun _ => (1:ℝ)/3)).anchors 0).x
          + 250 * k 5 * Real.cos (((initState 5 250 (fun _ => (1:ℝ)/3)).mids ((curve 5 0).ctrl1)).currentAngle) ∧
    ((initState 5 250 (fun _ => (1:ℝ)/3)).mids ((curve 5 0).ctrl1)).y
        = ((initState 5 250 (fun _ => (1:ℝ)/3)).anchors 0).y
          + 250 * k 5 * Real.sin (((initState 5 250 (fun _ => (1:ℝ)/3)).mids ((curve 5 0).ctrl1)).currentAngle) ∧
    ((initState 5 250 (fun _ => (1:ℝ)/3)).mids ((curve 5 0).ctrl2)).x
        = ((initState 5 250 (fun _ => (1:ℝ)/3)).anchors (nextI 5 0)).x
          + 250 * k 5 * Real.cos (((initState 5 250 (fun _ => (1:ℝ)/3)).mids ((curve 5 0).ctrl2)).currentAngle) ∧
    ((initState 5 250 (fun _ => (1:ℝ)/3)).mids ((curve 5 0).ctrl2)).y
        = ((initState 5 250 (fun _ => (1:ℝ)/3)).anchors (nextI 5 0)).y
          + 250 * k 5 * Real.sin (((initState 5 250 (fun _ => (1:ℝ)/3)).mids ((curve 5 0).ctrl2)).currentAngle) :=
  control_angles_and_positions 5 250 (fun _ => (1:ℝ)/3) 0 (by norm_num)

/-! ## Interaction: hit test and drag (utils.js + mouse handlers) -/

/-- `utils.distance(x0, y0, x1, y1)`: Euclidean distance. -/
def distance (x0 y0 x1 y1 : ℝ) : ℝ :=
  Real.sqrt ((x1 - x0) * (x1 - x0) + (y1 - y0) * (y1 - y0))

/-- `utils.circlePointCollision(x, y, circle)`: whether the distance between
the point and the circle center is at most the circle's radius. -/
def circlePointCollision (x y cx cy radius : ℝ) : Prop :=
  distance cx cy x y ≤ radius

instance (x y cx cy radius : ℝ) : Decidable (circlePointCollision x y cx cy radius) :=
  inferInstanceAs (Decidable (distance cx cy x y ≤ radius))

/-- The scan order of the `mousedown` handler: curves in array order, and
within each curve control-point slot 1 then slot 2 (`curves[i][j]`, `j=1,2`). -/
def hitScanOrder (N : ℕ) : List ℕ :=
  (List.range N).flatMap fun i => [(curve N i).ctrl1, (curve N i).ctrl2]

/-- The `mousedown` hit test: translate the pointer into shape-centered
coordinates, then return the first scanned mid point within pick radius 10
(`draggingPoint = midPoint; return`), or none. -/
def mousedown (N : ℕ) (width height : ℝ) (st : ShapeState)
    (clientX clientY : ℝ) : Option ℕ :=
  let x := clientX - width / 2
  let y := clientY - height / 2
  (hitScanOrder N).find? fun m =>
    decide (circlePointCollision x y (st.mids m).x (st.mids m).y 10)

/-- The whole interactive session: the shape plus `draggingPoint`. -/
structure Session where
  shape : ShapeState
  draggingPoint : Option ℕ

/-- The `mousemove` handler: while a mid point is captured it overwrites both
of its coordinates with the translated pointer position.  (The handler is only
registered while `draggingPoint` is set; with no capture it is a no-op.) -/
def mousemove (width height : ℝ) (s : Session) (clientX clientY : ℝ) : Session :=
  match s.draggingPoint with
  | none => s
  | some m =>
    let moved : MidPoint :=
      { s.shape.mids m with
          x := clientX - width / 2
        , y := clientY - height / 2 }
    { s with shape := setMid s.shape m moved }

/-- The `mouseup` handler: `draggingPoint = null`. -/
def mouseup (s : Session) : Session := { s with draggingPoint := none }

/-- C7: the hit test returns the first control point, scanning curves in array
order and slot 1 then slot 2 within each curve, whose Euclidean distance to
the translated pointer is at most the pick radius 10, and returns no match
when no control point is within that radius. -/
theorem hit_test_first_match (N : ℕ) (w h cx cy : ℝ) (st : ShapeState) :
    (mousedown N w h st cx cy = none ↔
      ∀ m ∈ hitScanOrder N,
        ¬ circlePointCollision (cx - w / 2) (cy - h / 2)
            (st.mids m).x (st.mids m).y 10) ∧
    ∀ mp : ℕ, mousedown N w h st cx cy = some mp ↔
      circlePointCollision (cx - w / 2) (cy - h / 2)
          (st.mids mp).x (st.mids mp).y 10 ∧
      ∃ l1 l2, hitScanOrder N = l1 ++ mp :: l2 ∧
        ∀ m2 ∈ l1,
          ¬ circlePointCollision (cx - w / 2) (cy - h / 2)
              (st.mids m2).x (st.mids m2).y 10 := by
  constructor
  · rw [show mousedown N w h st cx cy = (hitScanOrder N).find? fun m =>
      decide (circlePointCollision (cx - w / 2) (cy - h / 2)
        (st.mids m).x (st.mids m).y 10) from rfl]
    rw [List.find?_eq_none]
    simp
  · intro mp
    rw [show mousedown N w h st cx cy = (hitScanOrder N).find? fun m =>
      decide (circlePointCollision (cx - w / 2) (cy - h / 2)
        (st.mids m).x (st.mids m).y 10) from rfl]
    rw [List.find?_eq_some]
    simp

/-- C8: while a control point is captured, a pointer-move to surface position
`(cx, cy)` sets that control point's position to exactly
`(cx - width/2, cy - height/2)` in shape-local coordinates, on both axes,
whatever its prior position was. -/
theorem drag_sets_position (w h cx cy : ℝ) (s : Session) (m : ℕ)
    (hm : s.draggingPoint = some m) :
    ((mousemove w h s cx cy).shape.mids m).x = cx - w / 2 ∧
    ((mousemove w h s cx cy).shape.mids m).y = cy - h / 2 := by
  simp [mousemove, hm, setMid, Function.update_same]

/-- Witness for C8: a concrete captured point and pointer position. -/
theorem drag_sets_position_witness :
    ((mousemove 600 400 ⟨initState 5 250 (fun _ => (1:ℝ)/2), some 2⟩ 400 150).shape.mids 2).x
        = 400 - 600 / 2 ∧
    ((mousemove 600 400 ⟨initState 5 250 (fun _ => (1:ℝ)/2), some 2⟩ 400 150).shape.mids 2).y
        = 150 - 400 / 2 :=
  drag_sets_position 600 400 400 150 ⟨initState 5 250 (fun _ => (1:ℝ)/2), some 2⟩ 2 rfl

/-! ## Oscillator: updateMidPoints -/

/-- The body of the `updateMidPoints` loop for one main point `i`, performed
sequentially exactly as in the source: advance both connected mid points'
current angles by `speed * 0.02 * direction`, then possibly reverse the
movement direction and redraw a fresh speed (the `Math.random()` draw of this
iteration is the parameter `r`), then recompute both mid points' coordinates
from the owning main point's position at distance `baseRadius * k`. -/
def updateAnchorMidPoints (N : ℕ) (R r : ℝ) (st : ShapeState) (i : ℕ) :
    ShapeState :=
  let point := st.anchors i
  let m0 := point.conn0
  let m1 := point.conn1
  let delta := point.midPointMovementSpeed * 0.02 * (point.midPointMovementDirection : ℝ)
  let st1 := setMid st m0 { st.mids m0 with currentAngle := (st.mids m0).currentAngle + delta }
  let st2 := setMid st1 m1 { st1.mids m1 with currentAngle := (st1.mids m1).currentAngle + delta }
  let md0 := st2.mids m0
  let md1 := st2.mids m1
  let flip : ℤ × ℝ :=
    if md0.currentAngle ≥ md0.baseAngle + MAX_MIDPOINT_ROTATION ∨
        md1.currentAngle ≥ md1.baseAngle + MAX_MIDPOINT_ROTATION then
      (-1, r)
    else if md0.currentAngle ≤ md0.baseAngle - MAX_MIDPOINT_ROTATION ∨
        md1.currentAngle ≤ md1.baseAngle - MAX_MIDPOINT_ROTATION then
      (1, r)
    else
      (point.midPointMovementDirection, point.midPointMovementSpeed)
  let point2 : Anchor :=
    { point with midPointMovementDirection := flip.1, midPointMovementSpeed := flip.2 }
  let st3 := { st2 with anchors := Function.update st2.anchors i point2 }
  let st4 := setMid st3 m0 { st3.mids m0 with
      x := getMidPointComponent point.x Real.cos (st3.mids m0).currentAngle (R * k N)
    , y := getMidPointComponent point.y Real.sin (st3.mids m0).currentAngle (R * k N) }
  let st5 := setMid st4 m1 { st4.mids m1 with
      x := getMidPointComponent point.x Real.cos (st4.mids m1).currentAngle (R * k N)
    , y := getMidPointComponent point.y Real.sin (st4.mids m1).currentAngle (R * k N) }
  st5

/-- `updateMidPoints()`: the whole per-tick loop over all main points, with
`rnd i` the `Math.random()` draw available to iteration `i`. -/
def updateMidPoints (N : ℕ) (R : ℝ) (rnd : ℕ → ℝ) (st : ShapeState) : ShapeState :=
  (List.range N).foldl (fun s i => updateAnchorMidPoints N R (rnd i) s i) st

/-- Any number of animation ticks, each with its own random draws. -/
def runTicks (N : ℕ) (R : ℝ) (rs : List (ℕ → ℝ)) (st : ShapeState) : ShapeState :=
  rs.foldl (fun s rnd => updateMidPoints N R rnd s) st

/-- The part of the state one loop iteration reads and writes: the anchor's
two connected mid points, its movement direction and speed, its position. -/
structure AnchorSlice where
  md0 : MidPoint
  md1 : MidPoint
  dir : ℤ
  speed : ℝ
  px : ℝ
  py : ℝ

/-- Project anchor `i`'s slice out of the state. -/
def slice (st : ShapeState) (i : ℕ) : AnchorSlice :=
  { md0 := st.mids ((st.anchors i).conn0)
  , md1 := st.mids ((st.anchors i).conn1)
  , dir := (st.anchors i).midPointMovementDirection
  , speed := (st.anchors i).midPointMovementSpeed
  , px := (st.anchors i).x
  , py := (st.anchors i).y }

/-- The loop body as a pure function on one anchor's slice (`rk` is the
control-point distance `baseRadius * k`). -/
def oscStep (rk r : ℝ) (sl : AnchorSlice) : AnchorSlice :=
  let delta := sl.speed * 0.02 * (sl.dir : ℝ)
  let a0 := sl.md0.currentAngle + delta
  let a1 := sl.md1.currentAngle + delta
  let flip : ℤ × ℝ :=
    if a0 ≥ sl.md0.baseAngle + MAX_MIDPOINT_ROTATION ∨
        a1 ≥ sl.md1.baseAngle + MAX_MIDPOINT_ROTATION then
      (-1, r)
    else if a0 ≤ sl.md0.baseAngle - MAX_MIDPOINT_ROTATION ∨
        a1 ≤ sl.md1.baseAngle - MAX_MIDPOINT_ROTATION then
      (1, r)
    else
      (sl.dir, sl.speed)
  { md0 := { x := getMidPointComponent sl.px Real.cos a0 rk
           , y := getMidPointComponent sl.py Real.sin a0 rk
           , baseAngle := sl.md0.baseAngle
           , currentAngle := a0 }
  , md1 := { x := getMidPointComponent sl.px Real.cos a1 rk
           , y := getMidPointComponent sl.py Real.sin a1 rk
           , baseAngle := sl.md1.baseAngle
           , currentAngle := a1 }
  , dir := flip.1
  , speed := flip.2
  , px := sl.px
  , py := sl.py }

/-- The connection topology established by the `midPointConnections` loop:
anchor `i` is connected to curve `prevIdx i`'s second mid point and curve
`i`'s first mid point. -/
def StdConn (N : ℕ) (st : ShapeState) : Prop :=
  ∀ i, i < N →
    (st.anchors i).conn0 = 2 * prevIdx N i + 1 ∧ (st.anchors i).conn1 = 2 * i

@[simp] theorem setMid_anchors (st : ShapeState) (a : ℕ) (mp : MidPoint) :
    (setMid st a mp).anchors = st.anchors := rfl

@[simp] theorem setMid_mids (st : ShapeState) (a : ℕ) (mp : MidPoint) :
    (setMid st a mp).mids = Function.update st.mids a mp := rfl

theorem stdConn_init (N : ℕ) (R : ℝ) (s0 : ℕ → ℝ) :
    StdConn N (initState N R s0) := fun _ _ => ⟨rfl, rfl⟩

theorem update_chain_baseAngle {f : ℕ → MidPoint} {a : ℕ} {mp : MidPoint}
    (h : mp.baseAngle = (f a).baseAngle) (m : ℕ) :
    (Function.update f a mp m).baseAngle = (f m).baseAngle := by
  rcases eq_or_ne m a with rfl | hne
  · rw [Function.update_same]; exact h
  · rw [Function.update_noteq hne]

theorem step_mids_baseAngle (N : ℕ) (R r : ℝ) (st : ShapeState) (i m : ℕ) :
    ((updateAnchorMidPoints N R r st i).mids m).baseAngle
      = (st.mids m).baseAngle := by
  simp only [updateAnchorMidPoints, setMid_mids, setMid_anchors]
  rw [update_chain_baseAngle (by rfl), update_chain_baseAngle (by rfl),
    update_chain_baseAngle (by rfl), update_chain_baseAngle (by rfl)]

theorem step_mids_noteq (N : ℕ) (R r : ℝ) (st : ShapeState) (i m : ℕ)
    (h0 : m ≠ (st.anchors i).conn0) (h1 : m ≠ (st.anchors i).conn1) :
    (updateAnchorMidPoints N R r st i).mids m = st.mids m := by
  simp only [updateAnchorMidPoints, setMid_mids, setMid_anchors]
  rw [Function.update_noteq h1, Function.update_noteq h0,
    Function.update_noteq h1, Function.update_noteq h0]

theorem step_anchors_noteq (N : ℕ) (R r : ℝ) (st : ShapeState) (i j : ℕ)
    (h : j ≠ i) :
    (updateAnchorMidPoints N R r st i).anchors j = st.anchors j := by
  simp only [updateAnchorMidPoints, setMid_mids, setMid_anchors]
  exact Function.update_noteq h _ _

theorem step_anchor_same (N : ℕ) (R r : ℝ) (st : ShapeState) (i : ℕ) :
    ((updateAnchorMidPoints N R r st i).anchors i).x = (st.anchors i).x ∧
    ((updateAnchorMidPoints N R r st i).anchors i).y = (st.anchors i).y ∧
    ((updateAnchorMidPoints N R r st i).anchors i).conn0 = (st.anchors i).conn0 ∧
    ((updateAnchorMidPoints N R r st i).anchors i).conn1 = (st.anchors i).conn1 := by
  refine ⟨?_, ?_, ?_, ?_⟩ <;>
    (simp only [updateAnchorMidPoints, setMid_mids, setMid_anchors]
     rw [Function.update_same])

theorem step_anchor_fields (N : ℕ) (R r : ℝ) (st : ShapeState) (i j : ℕ) :
    ((updateAnchorMidPoints N R r st i).anchors j).x = (st.anchors j).x ∧
    ((updateAnchorMidPoints N R r st i).anchors j).y = (st.anchors j).y ∧
    ((updateAnchorMidPoints N R r st i).anchors j).conn0 = (st.anchors j).conn0 ∧
    ((updateAnchorMidPoints N R r st i).anchors j).conn1 = (st.anchors j).conn1 := by
  rcases eq_or_ne j i with rfl | hne
  · exact step_anchor_same N R r st j
  · rw [step_anchors_noteq N R r st i j hne]
    exact ⟨rfl, rfl, rfl, rfl⟩

theorem step_stdConn (N : ℕ) (R r : ℝ) (st : ShapeState) (j : ℕ)
    (h : StdConn N st) : StdConn N (updateAnchorMidPoints N R r st j) := by
  intro i hi
  have hf := step_anchor_fields N R r st j i
  rw [hf.2.2.1, hf.2.2.2]
  exact h i hi

theorem step_slice (N : ℕ) (R r : ℝ) (st : ShapeState) (i : ℕ)
    (hne : (st.anchors i).conn0 ≠ (st.anchors i).conn1) :
    slice (updateAnchorMidPoints N R r st i) i = oscStep (R * k N) r (slice st i) := by
  simp only [slice, oscStep, updateAnchorMidPoints, setMid_mids, setMid_anchors]
  rw [Function.update_same]
  simp only [Function.update_apply, if_neg hne, if_neg (Ne.symm hne), if_pos rfl]
  simp

theorem prevIdx_nextI (N q : ℕ) (hq : q < N) : prevIdx N (nextI N q) = q := by
  unfold nextI
  by_cases h : q + 1 < N
  · rw [if_pos h]
    unfold prevIdx
    rw [if_neg (by omega)]
    omega
  · rw [if_neg h]
    unfold prevIdx
    rw [if_pos rfl]
    omega

theorem nextI_lt (N q : ℕ) (hq : q < N) : nextI N q < N := by
  unfold nextI
  split_ifs <;> omega

/-- Distinct main points touch disjoint mid point cells (under `StdConn`). -/
theorem conn_disjoint (N i j : ℕ) (hi : i < N) (hj : j < N) (hji : j ≠ i) :
    2 * prevIdx N j + 1 ≠ 2 * prevIdx N i + 1 ∧
    2 * prevIdx N j + 1 ≠ 2 * i ∧
    2 * j ≠ 2 * prevIdx N i + 1 ∧
    2 * j ≠ 2 * i := by
  unfold prevIdx
  split_ifs <;> omega

theorem foldl_step_stdConn (N : ℕ) (R : ℝ) (rnd : ℕ → ℝ) (L : List ℕ)
    (st : ShapeState) (h : StdConn N st) :
    StdConn N (L.foldl (fun s j => updateAnchorMidPoints N R (rnd j) s j) st) := by
  induction L generalizing st with
  | nil => exact h
  | cons a L ih => exact ih _ (step_stdConn N R (rnd a) st a h)

theorem foldl_step_anchor_fields (N : ℕ) (R : ℝ) (rnd : ℕ → ℝ) (L : List ℕ)
    (st : ShapeState) (j : ℕ) :
    (((L.foldl (fun s a => updateAnchorMidPoints N R (rnd a) s a) st).anchors j).x
        = (st.anchors j).x) ∧
    (((L.foldl (fun s a => updateAnchorMidPoints N R (rnd a) s a) st).anchors j).y
        = (st.anchors j).y) ∧
    (((L.foldl (fun s a => updateAnchorMidPoints N R (rnd a) s a) st).anchors j).conn0
        = (st.anchors j).conn0) ∧
    (((L.foldl (fun s a => updateAnchorMidPoints N R (rnd a) s a) st).anchors j).conn1
        = (st.anchors j).conn1) := by
  induction L generalizing st with
  | nil => exact ⟨rfl, rfl, rfl, rfl⟩
  | cons a L ih =>
    have h1 := step_anchor_fields N R (rnd a) st a j
    have h2 := ih (updateAnchorMidPoints N R (rnd a) st a)
    exact ⟨h2.1.trans h1.1, h2.2.1.trans h1.2.1,
      h2.2.2.1.trans h1.2.2.1, h2.2.2.2.trans h1.2.2.2⟩

theorem foldl_step_baseAngle (N : ℕ) (R : ℝ) (rnd : ℕ → ℝ) (L : List ℕ)
    (st : ShapeState) (m : ℕ) :
    ((L.foldl (fun s a => updateAnchorMidPoints N R (rnd a) s a) st).mids m).baseAngle
      = (st.mids m).baseAngle := by
  induction L generalizing st with
  | nil => rfl
  | cons a L ih =>
    exact (ih (updateAnchorMidPoints N R (rnd a) st a)).trans
      (step_mids_baseAngle N R (rnd a) st a m)

/-- One iteration over another main point does not touch anchor `i`'s slice. -/
theorem step_slice_frame (N : ℕ) (R r : ℝ) (st : ShapeState) (i a : ℕ)
    (hst : StdConn N st) (hi : i < N) (haN : a < N) (hai : a ≠ i) :
    slice (updateAnchorMidPoints N R r st a) i = slice st i := by
  have hc := hst i hi
  have hca := hst a haN
  have hd := conn_disjoint N i a hi haN hai
  have h1 : (st.anchors i).conn0 ≠ (st.anchors a).conn0 := by
    rw [hc.1, hca.1]; exact (hd.1).symm
  have h2 : (st.anchors i).conn0 ≠ (st.anchors a).conn1 := by
    rw [hc.1, hca.2]; exact (hd.2.2.1).symm
  have h3 : (st.anchors i).conn1 ≠ (st.anchors a).conn0 := by
    rw [hc.2, hca.1]; exact (hd.2.1).symm
  have h4 : (st.anchors i).conn1 ≠ (st.anchors a).conn1 := by
    rw [hc.2, hca.2]; exact (hd.2.2.2).symm
  unfold slice
  rw [step_anchors_noteq N R r st a i (Ne.symm hai),
    step_mids_noteq N R r st a ((st.anchors i).conn0) h1 h2,
    step_mids_noteq N R r st a ((st.anchors i).conn1) h3 h4]

/-- Iterations over other main points do not touch anchor `i`'s slice. -/
theorem foldl_step_slice_frame (N : ℕ) (R : ℝ) (rnd : ℕ → ℝ) (i : ℕ)
    (hi : i < N) :
    ∀ (L : List ℕ) (st : ShapeState), StdConn N st →
      (∀ j ∈ L, j < N ∧ j ≠ i) →
      slice (L.foldl (fun s j => updateAnchorMidPoints N R (rnd j) s j) st) i
        = slice st i := by
  intro L
  induction L with
  | nil => intro st _ _; rfl
  | cons a L ih =>
    intro st hst hL
    have ha := hL a (List.mem_cons_self a L)
    rw [List.foldl_cons]
    rw [ih (updateAnchorMidPoints N R (rnd a) st a)
      (step_stdConn N R (rnd a) st a hst)
      (fun j hj => hL j (List.mem_cons_of_mem a hj))]
    exact step_slice_frame N R (rnd a) st i a hst hi ha.1 ha.2

/-- One full tick acts on anchor `i`'s slice exactly as `oscStep`. -/
theorem tick_slice (N : ℕ) (R : ℝ) (rnd : ℕ → ℝ) (st : ShapeState) (i : ℕ)
    (hst : StdConn N st) (hi : i < N) :
    slice (updateMidPoints N R rnd st) i = oscStep (R * k N) (rnd i) (slice st i) := by
  unfold updateMidPoints
  have hsplit : List.range N = List.range' 0 i ++ i :: List.range' (i + 1) (N - i - 1) := by
    rw [List.range_eq_range']
    nth_rewrite 1 [show N = N - i + i from by omega]
    rw [← List.range'_append_1 0 i (N - i)]
    congr 1
    rw [show N - i = (N - i - 1) + 1 from by omega]
    rw [List.range'_succ]
    simp
  rw [hsplit, List.foldl_append, List.foldl_cons]
  have hst1 : StdConn N (List.foldl (fun s j => updateAnchorMidPoints N R (rnd j) s j)
      st (List.range' 0 i)) := foldl_step_stdConn N R rnd _ st hst
  rw [foldl_step_slice_frame N R rnd i hi (List.range' (i + 1) (N - i - 1)) _
    (step_stdConn N R (rnd i) _ i hst1)
    (fun j hj => by
      rw [List.mem_range'_1] at hj
      omega)]
  have hconn := hst1 i hi
  have hne : ((List.foldl (fun s j => updateAnchorMidPoints N R (rnd j) s j)
      st (List.range' 0 i)).anchors i).conn0
      ≠ ((List.foldl (fun s j => updateAnchorMidPoints N R (rnd j) s j)
        st (List.range' 0 i)).anchors i).conn1 := by
    rw [hconn.1, hconn.2]; omega
  rw [step_slice N R (rnd i) _ i hne]
  rw [foldl_step_slice_frame N R rnd i hi (List.range' 0 i) st hst
    (fun j hj => by
      rw [List.mem_range'_1] at hj
      omega)]

theorem tick_stdConn (N : ℕ) (R : ℝ) (rnd : ℕ → ℝ) (st : ShapeState)
    (h : StdConn N st) : StdConn N (updateMidPoints N R rnd st) :=
  foldl_step_stdConn N R rnd (List.range N) st h

theorem tick_anchor_fields (N : ℕ) (R : ℝ) (rnd : ℕ → ℝ) (st : ShapeState) (j : ℕ) :
    (((updateMidPoints N R rnd st).anchors j).x = (st.anchors j).x) ∧
    (((updateMidPoints N R rnd st).anchors j).y = (st.anchors j).y) ∧
    (((updateMidPoints N R rnd st).anchors j).conn0 = (st.anchors j).conn0) ∧
    (((updateMidPoints N R rnd st).anchors j).conn1 = (st.anchors j).conn1) :=
  foldl_step_anchor_fields N R rnd (List.range N) st j

theorem tick_baseAngle (N : ℕ) (R : ℝ) (rnd : ℕ → ℝ) (st : ShapeState) (m : ℕ) :
    ((updateMidPoints N R rnd st).mids m).baseAngle = (st.mids m).baseAngle :=
  foldl_step_baseAngle N R rnd (List.range N) st m

theorem runTicks_stdConn (N : ℕ) (R : ℝ) (rs : List (ℕ → ℝ)) :
    ∀ (st : ShapeState), StdConn N st → StdConn N (runTicks N R rs st) := by
  induction rs with
  | nil => intro st h; exact h
  | cons r rs ih =>
    intro st h
    exact ih (updateMidPoints N R r st) (tick_stdConn N R r st h)

theorem runTicks_anchor_fields (N : ℕ) (R : ℝ) (rs : List (ℕ → ℝ)) :
    ∀ (st : ShapeState) (j : ℕ),
      (((runTicks N R rs st).anchors j).x = (st.anchors j).x) ∧
      (((runTicks N R rs st).anchors j).y = (st.anchors j).y) ∧
      (((runTicks N R rs st).anchors j).conn0 = (st.anchors j).conn0) ∧
      (((runTicks N R rs st).anchors j).conn1 = (st.anchors j).conn1) := by
  induction rs with
  | nil => intro st j; exact ⟨rfl, rfl, rfl, rfl⟩
  | cons r rs ih =>
    intro st j
    have h1 := tick_anchor_fields N R r st j
    have h2 := ih (updateMidPoints N R r st) j
    exact ⟨h2.1.trans h1.1, h2.2.1.trans h1.2.1,
      h2.2.2.1.trans h1.2.2.1, h2.2.2.2.trans h1.2.2.2⟩

/-- Over a whole run, anchor `i`'s slice evolves by iterating `oscStep` with
that anchor's random draws. -/
theorem runTicks_slice (N : ℕ) (R : ℝ) (rs : List (ℕ → ℝ)) (i : ℕ) (hi : i < N) :
    ∀ (st : ShapeState), StdConn N st →
      slice (runTicks N R rs st) i
        = rs.foldl (fun sl rnd => oscStep (R * k N) (rnd i) sl) (slice st i) := by
  induction rs with
  | nil => intro st _; rfl
  | cons r rs ih =>
    intro st hst
    show slice (runTicks N R rs (updateMidPoints N R r st)) i = _
    rw [ih (updateMidPoints N R r st) (tick_stdConn N R r st hst)]
    rw [tick_slice N R r st i hst hi]
    rfl

/-- The oscillator invariant on one anchor's slice: direction is `±1`, speed
lies in `[0,1)`, the two mid points stay in lockstep (equal offsets from
their base angles), while sweeping forward the offset has not yet reached
`+maxSweep`, while sweeping backward it has not yet reached `-maxSweep`, and
in all cases it stays within the max sweep plus one tick's worst-case step. -/
def OscInv (sl : AnchorSlice) : Prop :=
  (sl.dir = 1 ∨ sl.dir = -1) ∧
  0 ≤ sl.speed ∧ sl.speed < 1 ∧
  sl.md0.currentAngle - sl.md0.baseAngle = sl.md1.currentAngle - sl.md1.baseAngle ∧
  (sl.dir = 1 → sl.md0.currentAngle - sl.md0.baseAngle < MAX_MIDPOINT_ROTATION) ∧
  (sl.dir = -1 → -MAX_MIDPOINT_ROTATION < sl.md0.currentAngle - sl.md0.baseAngle) ∧
  -MAX_MIDPOINT_ROTATION - 0.02 < sl.md0.currentAngle - sl.md0.baseAngle ∧
  sl.md0.currentAngle - sl.md0.baseAngle < MAX_MIDPOINT_ROTATION + 0.02

theorem oscStep_inv (rk r : ℝ) (sl : AnchorSlice) (hr0 : 0 ≤ r) (hr1 : r < 1)
    (h : OscInv sl) : OscInv (oscStep rk r sl) := by
  obtain ⟨hdir, hs0, hs1, hlock, htop, hbot, hlo, hhi⟩ := h
  have hmax : 0 < MAX_MIDPOINT_ROTATION := by
    unfold MAX_MIDPOINT_ROTATION
    positivity
  have hdelta : (-0.02 : ℝ) < sl.speed * 0.02 * (sl.dir : ℝ) ∧
      sl.speed * 0.02 * (sl.dir : ℝ) < 0.02 ∧
      (sl.dir = 1 → 0 ≤ sl.speed * 0.02 * (sl.dir : ℝ)) ∧
      (sl.dir = -1 → sl.speed * 0.02 * (sl.dir : ℝ) ≤ 0) := by
    rcases hdir with hd | hd
    · rw [hd]
      push_cast
      refine ⟨by nlinarith, by nlinarith, fun _ => by nlinarith, fun h2 => ?_⟩
      exact absurd h2 (by decide)
    · rw [hd]
      push_cast
      refine ⟨by nlinarith, by nlinarith, fun h2 => ?_, fun _ => by nlinarith⟩
      exact absurd h2 (by decide)
  obtain ⟨hdlo, hdhi, hdpos, hdneg⟩ := hdelta
  unfold OscInv oscStep
  dsimp only
  split_ifs with hc1 hc2
  · -- reached or passed the maximum: flip to backward
    refine ⟨Or.inr rfl, hr0, hr1, by linarith, ?_, ?_, ?_, ?_⟩
    · intro habs
      simp at habs
    · intro _
      rcases hc1 with hc | hc
      · linarith
      · linarith
    · rcases hc1 with hc | hc
      · linarith
      · linarith
    · rcases hdir with hd | hd
      · have := htop hd
        have := hdpos hd
        linarith [hdhi]
      · have := hdneg hd
        linarith
  · -- reached or passed the minimum: flip to forward
    push_neg at hc1
    refine ⟨Or.inl rfl, hr0, hr1, by linarith, ?_, ?_, ?_, ?_⟩
    · intro _
      linarith [hc1.1]
    · intro habs
      simp at habs
    · rcases hdir with hd | hd
      · have := hdpos hd
        linarith
      · have := hbot hd
        have := hdneg hd
        linarith [hdlo]
    · rcases hc2 with hc | hc
      · linarith
      · linarith
  · -- no flip
    push_neg at hc1 hc2
    refine ⟨hdir, hs0, hs1, by linarith, ?_, ?_, ?_, ?_⟩
    · intro _
      linarith [hc1.1]
    · intro _
      linarith [hc2.1]
    · rcases hdir with hd | hd
      · have := hdpos hd
        linarith
      · have := hbot hd
        linarith [hdlo]
    · rcases hdir with hd | hd
      · have := htop hd
        linarith [hdhi]
      · have := hdneg hd
        linarith

theorem initMid_cur_eq_base (N : ℕ) (R : ℝ) (m : ℕ) :
    (initMid N R m).currentAngle = (initMid N R m).baseAngle := by
  unfold initMid
  split <;> rfl

theorem oscInv_init (N : ℕ) (R : ℝ) (s0 : ℕ → ℝ) (i : ℕ)
    (hs0 : 0 ≤ s0 i ∧ s0 i < 1) : OscInv (slice (initState N R s0) i) := by
  have hmax : 0 < MAX_MIDPOINT_ROTATION := by
    unfold MAX_MIDPOINT_ROTATION
    positivity
  have h0 := initMid_cur_eq_base N R (((initState N R s0).anchors i).conn0)
  have h1 := initMid_cur_eq_base N R (((initState N R s0).anchors i).conn1)
  refine ⟨Or.inl rfl, hs0.1, hs0.2, ?_, ?_, ?_, ?_, ?_⟩
  · show (initMid N R (((initState N R s0).anchors i).conn0)).currentAngle
          - (initMid N R (((initState N R s0).anchors i).conn0)).baseAngle
        = (initMid N R (((initState N R s0).anchors i).conn1)).currentAngle
          - (initMid N R (((initState N R s0).anchors i).conn1)).baseAngle
    rw [h0, h1]
    ring
  · intro _
    show (initMid N R (((initState N R s0).anchors i).conn0)).currentAngle
          - (initMid N R (((initState N R s0).anchors i).conn0)).baseAngle
        < MAX_MIDPOINT_ROTATION
    rw [h0]
    simpa using hmax
  · intro habs
    have h2 : (1 : ℤ) = -1 := habs
    exact absurd h2 (by decide)
  · show -MAX_MIDPOINT_ROTATION - 0.02
        < (initMid N R (((initState N R s0).anchors i).conn0)).currentAngle
          - (initMid N R (((initState N R s0).anchors i).conn0)).baseAngle
    rw [h0]
    simp only [sub_self]
    linarith
  · show (initMid N R (((initState N R s0).anchors i).conn0)).currentAngle
          - (initMid N R (((initState N R s0).anchors i).conn0)).baseAngle
        < MAX_MIDPOINT_ROTATION + 0.02
    rw [h0]
    simp only [sub_self]
    linarith

theorem foldl_oscStep_inv (rk : ℝ) (i : ℕ) :
    ∀ (l : List (ℕ → ℝ)) (sl : AnchorSlice), OscInv sl →
      (∀ f ∈ l, 0 ≤ f i ∧ f i < 1) →
      OscInv (l.foldl (fun sl2 rnd => oscStep rk (rnd i) sl2) sl) := by
  intro l
  induction l with
  | nil => intro sl h _; exact h
  | cons r l ih =>
    intro sl h hl
    have hr := hl r (List.mem_cons_self r l)
    exact ih (oscStep rk (r i) sl) (oscStep_inv rk (r i) sl hr.1 hr.2 h)
      (fun f hf => hl f (List.mem_cons_of_mem r hf))

/-- The bounded-sweep property of anchor `i`'s two paired control points:
while the direction is still forward the current angle stays below
`baseAngle + maxSweep` (it can pass it only together with the flip to
backward), while backward it stays above `baseAngle - maxSweep` (it can drop
below only together with the flip back to forward), and in every case it
stays within max sweep plus one worst-case step `0.02` — no runaway drift. -/
def BoundedSweep (st : ShapeState) (i : ℕ) : Prop :=
  let a := st.anchors i
  let q0 := st.mids a.conn0
  let q1 := st.mids a.conn1
  (a.midPointMovementDirection = 1 →
    q0.currentAngle < q0.baseAngle + MAX_MIDPOINT_ROTATION ∧
    q1.currentAngle < q1.baseAngle + MAX_MIDPOINT_ROTATION) ∧
  (a.midPointMovementDirection = -1 →
    q0.baseAngle - MAX_MIDPOINT_ROTATION < q0.currentAngle ∧
    q1.baseAngle - MAX_MIDPOINT_ROTATION < q1.currentAngle) ∧
  (q0.baseAngle - MAX_MIDPOINT_ROTATION - 0.02 < q0.currentAngle ∧
    q0.currentAngle < q0.baseAngle + MAX_MIDPOINT_ROTATION + 0.02) ∧
  (q1.baseAngle - MAX_MIDPOINT_ROTATION - 0.02 < q1.currentAngle ∧
    q1.currentAngle < q1.baseAngle + MAX_MIDPOINT_ROTATION + 0.02)

/-- C4: starting from the freshly built shape (control points at their base
angles, forward direction), after any number of oscillation ticks with
random draws in `[0,1)`, every anchor's paired control points satisfy the
bounded-sweep property: the current angle never exceeds
`baseAngle + maxSweep` before the direction flips to backward, never drops
below `baseAngle - maxSweep` once the direction has flipped back to forward,
and always stays within the sweep arc plus one tick's step. -/
theorem oscillation_bounded (N : ℕ) (R : ℝ) (s0 : ℕ → ℝ) (rs : List (ℕ → ℝ))
    (i : ℕ) (hi : i < N) (hs0 : 0 ≤ s0 i ∧ s0 i < 1)
    (hrs : ∀ f ∈ rs, 0 ≤ f i ∧ f i < 1) :
    BoundedSweep (runTicks N R rs (initState N R s0)) i := by
  have hinv : OscInv (slice (runTicks N R rs (initState N R s0)) i) := by
    rw [runTicks_slice N R rs i hi (initState N R s0) (stdConn_init N R s0)]
    exact foldl_oscStep_inv (R * k N) i rs (slice (initState N R s0) i)
      (oscInv_init N R s0 i hs0) hrs
  obtain ⟨hdir, hsp0, hsp1, hlock, htop, hbot, hlo, hhi⟩ := hinv
  simp only [slice] at hlock htop hbot hlo hhi
  unfold BoundedSweep
  dsimp only
  refine ⟨fun hd => ⟨?_, ?_⟩, fun hd => ⟨?_, ?_⟩, ⟨?_, ?_⟩, ⟨?_, ?_⟩⟩
  · linarith [htop hd]
  · linarith [htop hd, hlock]
  · linarith [hbot hd]
  · linarith [hbot hd, hlock]
  · linarith
  · linarith
  · linarith [hlo, hlock]
  · linarith [hhi, hlock]

/-- Witness for C4: the actual configuration, one tick, anchor 0. -/
theorem oscillation_bounded_witness :
    BoundedSweep (runTicks 5 250 [fun _ => (1:ℝ)/2]
      (initState 5 250 (fun _ => (1:ℝ)/3))) 0 :=
  oscillation_bounded 5 250 (fun _ => (1:ℝ)/3) [fun _ => (1:ℝ)/2] 0 (by norm_num)
    ⟨by norm_num, by norm_num⟩
    (by
      intro f hf
      simp only [List.mem_singleton] at hf
      subst hf
      exact ⟨by norm_num, by norm_num⟩)

/-- C6: after any number of oscillation ticks, anchor `i`'s two paired
control points are still exactly the second control point of curve
`(i-1) mod N` and the first control point of curve `i` — the very cells
referenced by the adjacent curves (`prevIdx N i` agrees with `(i-1) mod N`,
written here as `(i + (N-1)) % N`). -/
theorem pairing_exact_and_stable (N : ℕ) (R : ℝ) (s0 : ℕ → ℝ)
    (rs : List (ℕ → ℝ)) (i : ℕ) (hi : i < N) :
    ((runTicks N R rs (initState N R s0)).anchors i).conn0
        = (curve N (prevIdx N i)).ctrl2 ∧
    ((runTicks N R rs (initState N R s0)).anchors i).conn1
        = (curve N i).ctrl1 ∧
    prevIdx N i = (i + (N - 1)) % N := by
  have h := runTicks_anchor_fields N R rs (initState N R s0) i
  refine ⟨h.2.2.1.trans rfl, h.2.2.2.trans rfl, ?_⟩
  unfold prevIdx
  by_cases h0 : i = 0
  · subst h0
    rw [if_pos rfl, Nat.zero_add, Nat.mod_eq_of_lt (by omega)]
  · rw [if_neg h0]
    have h1 : i + (N - 1) = (i - 1) + N := by omega
    rw [h1, Nat.add_mod_right, Nat.mod_eq_of_lt (by omega)]

/-- Witness for C6: actual configuration, one tick, anchor 2. -/
theorem pairing_exact_and_stable_witness :
    ((runTicks 5 250 [fun _ => (1:ℝ)/2] (initState 5 250 (fun _ => (1:ℝ)/2))).anchors 2).conn0
        = (curve 5 (prevIdx 5 2)).ctrl2 ∧
    ((runTicks 5 250 [fun _ => (1:ℝ)/2] (initState 5 250 (fun _ => (1:ℝ)/2))).anchors 2).conn1
        = (curve 5 2).ctrl1 ∧
    prevIdx 5 2 = (2 + (5 - 1)) % 5 :=
  pairing_exact_and_stable 5 250 (fun _ => (1:ℝ)/2) [fun _ => (1:ℝ)/2] 2 (by norm_num)

/-- What one oscillation tick leaves untouched: every anchor's position and
connection list, and every control point's base angle. -/
def TickFrame (N : ℕ) (R : ℝ) (rnd : ℕ → ℝ) (st : ShapeState) : Prop :=
  (∀ i, ((updateMidPoints N R rnd st).anchors i).x = (st.anchors i).x ∧
    ((updateMidPoints N R rnd st).anchors i).y = (st.anchors i).y ∧
    ((updateMidPoints N R rnd st).anchors i).conn0 = (st.anchors i).conn0 ∧
    ((updateMidPoints N R rnd st).anchors i).conn1 = (st.anchors i).conn1) ∧
  ∀ m2, ((updateMidPoints N R rnd st).mids m2).baseAngle = (st.mids m2).baseAngle

/-- What one drag update leaves untouched: every other control point, the
captured control point's angles, and every anchor. -/
def DragFrame (w h cx cy : ℝ) (s : Session) (m : ℕ) : Prop :=
  (∀ j, j ≠ m → (mousemove w h s cx cy).shape.mids j = s.shape.mids j) ∧
  ((mousemove w h s cx cy).shape.mids m).baseAngle = (s.shape.mids m).baseAngle ∧
  ((mousemove w h s cx cy).shape.mids m).currentAngle = (s.shape.mids m).currentAngle ∧
  ∀ i, (mousemove w h s cx cy).shape.anchors i = s.shape.anchors i

/-- C10: an oscillation tick writes only control points' current angles and
positions plus the anchors' sweep direction and speed — anchor positions,
connection lists and control-point base angles are unchanged — and a drag
update writes only the captured control point's coordinates. -/
theorem tick_and_drag_frame (N : ℕ) (R : ℝ) (rnd : ℕ → ℝ) (st : ShapeState)
    (w h cx cy : ℝ) (s : Session) (m : ℕ) (hm : s.draggingPoint = some m) :
    TickFrame N R rnd st ∧ DragFrame w h cx cy s m := by
  constructor
  · exact ⟨fun i => tick_anchor_fields N R rnd st i,
      fun m2 => tick_baseAngle N R rnd st m2⟩
  · refine ⟨?_, ?_, ?_, ?_⟩
    · intro j hj
      simp [mousemove, hm, setMid, Function.update_noteq hj]
    · simp [mousemove, hm, setMid, Function.update_same]
    · simp [mousemove, hm, setMid, Function.update_same]
    · intro i
      simp [mousemove, hm, setMid]

/-- Witness for C10 at a concrete state, tick and drag. -/
theorem tick_and_drag_frame_witness :
    TickFrame 5 250 (fun _ => (1:ℝ)/2) (initState 5 250 (fun _ => (1:ℝ)/2)) ∧
    DragFrame 600 400 120 80 ⟨initState 5 250 (fun _ => (1:ℝ)/2), some 3⟩ 3 :=
  tick_and_drag_frame 5 250 (fun _ => (1:ℝ)/2) (initState 5 250 (fun _ => (1:ℝ)/2))
    600 400 120 80 ⟨initState 5 250 (fun _ => (1:ℝ)/2), some 3⟩ 3 rfl

/-- The anchor owning mid point cell `m`: curve `m/2`'s first mid point is
paired with anchor `m/2`, its second with anchor `nextI (m/2)`. -/
def ownerIdx (N m : ℕ) : ℕ := if m % 2 = 0 then m / 2 else nextI N (m / 2)

/-- The control-point derivation invariant: every mid point sits at its
owning anchor's position plus `R * k` in the direction of its current angle. -/
def DerivInvariant (N : ℕ) (R : ℝ) (st : ShapeState) : Prop :=
  ∀ m, m < 2 * N →
    (st.mids m).x = (st.anchors (ownerIdx N m)).x
        + R * k N * Real.cos ((st.mids m).currentAngle) ∧
    (st.mids m).y = (st.anchors (ownerIdx N m)).y
        + R * k N * Real.sin ((st.mids m).currentAngle)

theorem oscStep_md0_x (rk r : ℝ) (sl : AnchorSlice) :
    (oscStep rk r sl).md0.x
      = sl.px + Real.cos ((oscStep rk r sl).md0.currentAngle) * rk := rfl

theorem oscStep_md0_y (rk r : ℝ) (sl : AnchorSlice) :
    (oscStep rk r sl).md0.y
      = sl.py + Real.sin ((oscStep rk r sl).md0.currentAngle) * rk := rfl

theorem oscStep_md1_x (rk r : ℝ) (sl : AnchorSlice) :
    (oscStep rk r sl).md1.x
      = sl.px + Real.cos ((oscStep rk r sl).md1.currentAngle) * rk := rfl

theorem oscStep_md1_y (rk r : ℝ) (sl : AnchorSlice) :
    (oscStep rk r sl).md1.y
      = sl.py + Real.sin ((oscStep rk r sl).md1.currentAngle) * rk := rfl

theorem derivInvariant_init (N : ℕ) (R : ℝ) (s0 : ℕ → ℝ) :
    DerivInvariant N R (initState N R s0) := by
  intro m hm
  by_cases hp : m % 2 = 0
  · constructor <;>
      · simp only [initState, initMid, initAnchor, getMidPointComponent,
          ownerIdx, if_pos hp]
        ring
  · constructor <;>
      · simp only [initState, initMid, initAnchor, getMidPointComponent,
          ownerIdx, if_neg hp]
        ring

theorem derivInvariant_tick (N : ℕ) (R : ℝ) (rnd : ℕ → ℝ) (st : ShapeState)
    (hN : 1 ≤ N) (hst : StdConn N st) :
    DerivInvariant N R (updateMidPoints N R rnd st) := by
  intro m hm
  by_cases hp : m % 2 = 0
  · have hiN : m / 2 < N := by omega
    have hm2 : m = 2 * (m / 2) := by omega
    have hconn := (tick_stdConn N R rnd st hst) (m / 2) hiN
    have hslice := tick_slice N R rnd st (m / 2) hst hiN
    have hmid : (updateMidPoints N R rnd st).mids m
        = (oscStep (R * k N) (rnd (m / 2)) (slice st (m / 2))).md1 := by
      rw [← hslice]
      show _ = (updateMidPoints N R rnd st).mids
        ((updateMidPoints N R rnd st).anchors (m / 2)).conn1
      rw [hconn.2, ← hm2]
    have howner : ownerIdx N m = m / 2 := by
      unfold ownerIdx
      rw [if_pos hp]
    have hax := tick_anchor_fields N R rnd st (m / 2)
    rw [howner, hmid]
    constructor
    · rw [oscStep_md1_x, hax.1]
      simp only [slice]
      ring
    · rw [oscStep_md1_y, hax.2.1]
      simp only [slice]
      ring
  · have hqN : m / 2 < N := by omega
    have hjN : nextI N (m / 2) < N := nextI_lt N (m / 2) hqN
    have hm2 : m = 2 * prevIdx N (nextI N (m / 2)) + 1 := by
      rw [prevIdx_nextI N (m / 2) hqN]
      omega
    have hconn := (tick_stdConn N R rnd st hst) (nextI N (m / 2)) hjN
    have hslice := tick_slice N R rnd st (nextI N (m / 2)) hst hjN
    have hmid : (updateMidPoints N R rnd st).mids m
        = (oscStep (R * k N) (rnd (nextI N (m / 2))) (slice st (nextI N (m / 2)))).md0 := by
      rw [← hslice]
      show _ = (updateMidPoints N R rnd st).mids
        ((updateMidPoints N R rnd st).anchors (nextI N (m / 2))).conn0
      rw [hconn.1, ← hm2]
    have howner : ownerIdx N m = nextI N (m / 2) := by
      unfold ownerIdx
      rw [if_neg hp]
    have hax := tick_anchor_fields N R rnd st (nextI N (m / 2))
    rw [howner, hmid]
    constructor
    · rw [oscStep_md0_x, hax.1]
      simp only [slice]
      ring
    · rw [oscStep_md0_y, hax.2.1]
      simp only [slice]
      ring

/-- C2 amended: the derivation invariant holds in the freshly built shape and
is re-established by every oscillation tick (from any state with the standard
connection topology, dragged or not); but it is NOT restored by releasing a
drag — see the counterexample `derivation_fails_after_release`. -/
theorem derivation_invariant_init_and_tick (N : ℕ) (R : ℝ) (s0 rnd : ℕ → ℝ)
    (st : ShapeState) (hN : 3 ≤ N) (hst : StdConn N st) :
    DerivInvariant N R (initState N R s0) ∧
    DerivInvariant N R (updateMidPoints N R rnd st) :=
  ⟨derivInvariant_init N R s0, derivInvariant_tick N R rnd st (by omega) hst⟩

/-- Witness for C2's amended theorem at the actual configuration. -/
theorem derivation_invariant_init_and_tick_witness :
    DerivInvariant 5 250 (initState 5 250 (fun _ => (1:ℝ)/2)) ∧
    DerivInvariant 5 250 (updateMidPoints 5 250 (fun _ => (1:ℝ)/3)
      (initState 5 250 (fun _ => (1:ℝ)/2))) :=
  derivation_invariant_init_and_tick 5 250 (fun _ => (1:ℝ)/2) (fun _ => (1:ℝ)/3)
    (initState 5 250 (fun _ => (1:ℝ)/2)) (by norm_num)
    (stdConn_init 5 250 (fun _ => (1:ℝ)/2))

/-- A session that captures mid point 0 (curve 0's first control point),
drags it to surface position `(1300, 900)` on a 600 by 400 surface, then
releases the mouse button. -/
def dragDemo : Session :=
  mouseup (mousemove 600 400 ⟨initState 5 250 (fun _ => (1:ℝ)/2), some 0⟩ 1300 900)

/-- C2 counterexample: immediately after the drag above is released (and
before any oscillation tick), control point 0's position does NOT equal its
owning anchor's position plus `R * k * (cos currentAngle, sin currentAngle)`:
the x coordinate is `1000` while the derived value is `250 * k < 500`. -/
theorem derivation_fails_after_release :
    (dragDemo.shape.mids 0).x ≠ (dragDemo.shape.anchors (ownerIdx 5 0)).x
        + 250 * k 5 * Real.cos ((dragDemo.shape.mids 0).currentAngle) := by
  have hs : Real.sqrt 2 < 1.5 := by
    nlinarith [Real.sq_sqrt (by norm_num : (0:ℝ) ≤ 2), Real.sqrt_nonneg 2]
  have h1 : dragDemo.shape.mids 0
      = { initMid 5 250 0 with x := 1300 - 600 / 2, y := 900 - 400 / 2 } := rfl
  have h2 : dragDemo.shape.anchors (ownerIdx 5 0)
      = initAnchor 5 250 (fun _ => (1:ℝ)/2) 0 := rfl
  rw [h1, h2]
  have h3 : (initMid 5 250 0).currentAngle = 0 := by
    simp [initMid, firstMidPointAngle]
  have h4 : (initAnchor 5 250 (fun _ => (1:ℝ)/2) 0).x = 0 := by
    simp [initAnchor, mainPoint, curveStartAngle, Real.cos_pi_div_two]
  show (1300 : ℝ) - 600 / 2 ≠ _
  rw [h3, h4, Real.cos_zero]
  have h5 : 250 * k 5 = (16 * Real.sqrt 2 - 16) / 15 * 250 / 16 * 16 / 250 * 250 := by
    unfold k
    push_cast
    ring
  intro habs
  rw [h5] at habs
  nlinarith [hs, Real.sqrt_nonneg 2]

end CanvasBlob
